import Mathlib

/-!
A verification development for the HAR-analysis knowledge engine
(`har_agent.py`): the persistent knowledge store and its upsert/merge
semantics, the path canonicalizer, the confidence/stability/deprecation
scoring heuristics, the quality assessor, and the feedback loop.

Conventions of the embedding:
* Real-valued scalars (confidence, stability, deprecation risk, quality
  score) are modelled as rationals `ℚ`; the decimal constants of the
  source (`0.05`, `0.03`, `0.1`, `0.2`, `0.5`, `0.7`, `0.8`) appear as
  the corresponding rationals.
* Timestamps (ISO-8601 strings in the source, compared lexicographically
  by SQLite, which on ISO strings coincides with chronological order)
  are modelled as integers.
* The SQLite tables are modelled as lists of rows; the `UNIQUE` keys
  (`patterns.pattern`, `endpoints.path`) drive the `ON CONFLICT` upsert
  branches, which are modelled by an update of the matching rows.
* Python's substring test `sub in s` is modelled by `List.IsInfix` on
  the character lists, and the two `re.sub` calls of the canonicalizer
  by explicit character scanners with the same leftmost, non-overlapping
  match semantics.
* The regular-expression search `re.search(pattern, path)` used by the
  enrichment scan is abstracted as an arbitrary boolean match function:
  none of the stated properties depends on how the match is decided.
-/

namespace HarAgent

/-- Row of the `patterns` table (dataclass `Pattern`). -/
structure Pattern where
  pattern : String
  category : String
  confidence : ℚ
  first_seen : Int
  last_seen : Int
  occurrence_count : Int
  sources : List String
  deriving DecidableEq, Repr

/-- Row of the `endpoints` table (dataclass `APIEndpointIntel`). -/
structure APIEndpointIntel where
  path : String
  method : String
  category : String
  confidence : ℚ
  stability_score : ℚ
  first_discovered : Int
  last_seen : Int
  version_history : List String
  deprecation_risk : ℚ
  related_endpoints : List String
  deriving DecidableEq, Repr

/-- Row of the `feedback` table; the referenced endpoint is identified by
its (unique) path rather than by its surrogate integer id. -/
structure FeedbackRecord where
  endpoint_path : String
  feedback_type : String
  comment : String
  created_at : Int
  deriving DecidableEq, Repr

/-- An anomaly record produced by `_detect_anomalies`. -/
structure Anomaly where
  kind : String
  endpoint : String
  severity : String
  deriving DecidableEq, Repr

/-- The persistent store (`KnowledgeBase`): the three mutable tables the
claims are about.  `analysis_history` is append-only and unreferenced by
the claims, so it is omitted. -/
structure KnowledgeBase where
  patterns : List Pattern
  endpoints : List APIEndpointIntel
  feedback : List FeedbackRecord
  deriving DecidableEq, Repr

/-- The freshly initialised store. -/
def emptyKB : KnowledgeBase := ⟨[], [], []⟩

/-- The `ON CONFLICT(pattern) DO UPDATE` clause of `learn_pattern`. -/
def patternConflictUpdate (q p : Pattern) : Pattern :=
  { q with
    last_seen := p.last_seen
    occurrence_count := q.occurrence_count + 1
    confidence := min 1 (q.confidence + 5/100)
    sources := p.sources }

/-- `KnowledgeBase.learn_pattern`: insert, or merge on the unique
`pattern` key. -/
def learnPattern (kb : KnowledgeBase) (p : Pattern) : KnowledgeBase :=
  if kb.patterns.any (fun q => q.pattern == p.pattern) then
    let merged := kb.patterns.map
      (fun q => if q.pattern == p.pattern then patternConflictUpdate q p else q)
    { kb with patterns := merged }
  else
    { kb with patterns := kb.patterns ++ [p] }

/-- The `ON CONFLICT(path) DO UPDATE` clause of `learn_endpoint`. -/
def endpointConflictUpdate (q e : APIEndpointIntel) : APIEndpointIntel :=
  { q with
    last_seen := e.last_seen
    confidence := min 1 (q.confidence + 3/100)
    stability_score := (q.stability_score + e.stability_score) / 2
    version_history := e.version_history }

/-- `KnowledgeBase.learn_endpoint`: insert, or merge on the unique `path`
key. -/
def learnEndpoint (kb : KnowledgeBase) (e : APIEndpointIntel) : KnowledgeBase :=
  if kb.endpoints.any (fun q => q.path == e.path) then
    let merged := kb.endpoints.map
      (fun q => if q.path == e.path then endpointConflictUpdate q e else q)
    { kb with endpoints := merged }
  else
    { kb with endpoints := kb.endpoints ++ [e] }

/-- The confidence adjustment applied by `add_feedback` to the referenced
endpoint row. -/
def feedbackAdjust (ftype : String) (e : APIEndpointIntel) : APIEndpointIntel :=
  if ftype == "correct" then
    { e with confidence := min 1 (e.confidence + 1/10) }
  else if ftype == "false_positive" then
    { e with confidence := max 0 (e.confidence - 2/10) }
  else
    e

/-- `KnowledgeBase.add_feedback`: look the endpoint up by path; if absent
do nothing at all, otherwise append a feedback row and adjust the
endpoint's confidence according to the feedback type. -/
def addFeedback (kb : KnowledgeBase) (path ftype comment : String) (now : Int) :
    KnowledgeBase :=
  match kb.endpoints.find? (fun e => e.path == path) with
  | none => kb
  | some _ =>
      let adjusted := kb.endpoints.map
        (fun e => if e.path == path then feedbackAdjust ftype e else e)
      { kb with
        feedback := kb.feedback ++ [⟨path, ftype, comment, now⟩]
        endpoints := adjusted }

/-- The `ORDER BY confidence DESC, occurrence_count DESC` relation of
`get_learned_patterns`. -/
def patLe (a b : Pattern) : Prop :=
  b.confidence < a.confidence ∨
    (a.confidence = b.confidence ∧ b.occurrence_count ≤ a.occurrence_count)

instance : DecidableRel patLe := fun a b => by unfold patLe; infer_instance

instance : IsTotal Pattern patLe where
  total a b := by
    rcases lt_trichotomy a.confidence b.confidence with h | h | h
    · exact Or.inr (Or.inl h)
    · rcases le_total b.occurrence_count a.occurrence_count with h2 | h2
      · exact Or.inl (Or.inr ⟨h, h2⟩)
      · exact Or.inr (Or.inr ⟨h.symm, h2⟩)
    · exact Or.inl (Or.inl h)

instance : IsTrans Pattern patLe where
  trans a b c hab hbc := by
    rcases hab with h1 | ⟨e1, l1⟩ <;> rcases hbc with h2 | ⟨e2, l2⟩
    · exact Or.inl (h2.trans h1)
    · exact Or.inl (e2 ▸ h1)
    · exact Or.inl (e1 ▸ h2)
    · exact Or.inr ⟨e1.trans e2, l2.trans l1⟩

/-- `KnowledgeBase.get_learned_patterns`: the rows with
`confidence >= min_confidence`, ordered by confidence descending with
ties broken by occurrence count descending. -/
def getLearnedPatterns (kb : KnowledgeBase) (minConfidence : ℚ) : List Pattern :=
  (kb.patterns.filter (fun p => decide (minConfidence ≤ p.confidence))).insertionSort patLe

/-- The `ORDER BY deprecation_risk DESC` relation of
`detect_deprecations`. -/
def riskLe (a b : APIEndpointIntel) : Prop :=
  b.deprecation_risk ≤ a.deprecation_risk

instance : DecidableRel riskLe := fun a b => by unfold riskLe; infer_instance

instance : IsTotal APIEndpointIntel riskLe where
  total a b := (le_total b.deprecation_risk a.deprecation_risk).imp id id

instance : IsTrans APIEndpointIntel riskLe where
  trans _ _ _ hab hbc := le_trans hbc hab

/-- `KnowledgeBase.detect_deprecations`: endpoints whose `last_seen`
predates `now - days_threshold`, ordered by deprecation risk descending.
A pure query: the store is not touched. -/
def detectDeprecations (kb : KnowledgeBase) (now daysThreshold : Int) :
    List APIEndpointIntel :=
  (kb.endpoints.filter (fun e => decide (e.last_seen < now - daysThreshold))).insertionSort riskLe

/-- Python's substring test `sub in s`. -/
def containsStr (s sub : String) : Bool :=
  decide (sub.toList <:+: s.toList)

/-- `HARAgent._detect_category`: fixed substring rules, first match wins. -/
def detectCategory (path : String) : String :=
  if containsStr path "/sse/" then "SSE"
  else if containsStr path "/rest/" then "REST"
  else if containsStr path "/realtime/" then "Realtime"
  else if containsStr path "/threads/" then "Threads"
  else if containsStr path "/auth/" || containsStr path "/login" then "Auth"
  else "Other"

/-- `HARAgent._infer_method`: fixed substring rules, first match wins.
Note that every probe of the source carries a leading slash
(`'/create' in path`, `'/add' in path`, ...). -/
def inferMethod (path : String) : String :=
  if containsStr path "/create" || containsStr path "/add" then "POST"
  else if containsStr path "/update" || containsStr path "/edit" then "PUT"
  else if containsStr path "/delete" || containsStr path "/remove" then "DELETE"
  else "GET"

/-- A lowercase hexadecimal digit, the character class `[0-9a-f]` of the
UUID regex in `_extract_pattern`. -/
def isLowerHexDigit (c : Char) : Bool :=
  c.isDigit || ('a' ≤ c && c ≤ 'f')

/-- Consume exactly `n` lowercase hex digits, returning the rest. -/
def dropHex : Nat → List Char → Option (List Char)
  | 0, l => some l
  | _ + 1, [] => none
  | n + 1, c :: cs => if isLowerHexDigit c then dropHex n cs else none

/-- Consume one dash, returning the rest. -/
def dropDash : List Char → Option (List Char)
  | '-' :: cs => some cs
  | _ => none

/-- Try to match the UUID regex
`[0-9a-f]{8}-[0-9a-f]{4}-[0-9a-f]{4}-[0-9a-f]{4}-[0-9a-f]{12}` at the
head of the character list; on success return the remainder after the
36-character match. -/
def matchUuid (l : List Char) : Option (List Char) :=
  (dropHex 8 l).bind fun l1 =>
  (dropDash l1).bind fun l2 =>
  (dropHex 4 l2).bind fun l3 =>
  (dropDash l3).bind fun l4 =>
  (dropHex 4 l4).bind fun l5 =>
  (dropDash l5).bind fun l6 =>
  (dropHex 4 l6).bind fun l7 =>
  (dropDash l7).bind fun l8 =>
  dropHex 12 l8

/-- The scan of `re.sub(uuid_regex, "\x7buuid\x7d", path)`: leftmost
non-overlapping reSearch, continuing after each replacement.  The fuel
argument makes the recursion structural; each step consumes at least one
character, so `fuel = length` never runs out. -/
def uuidSubFuel : Nat → List Char → List Char
  | 0, l => l
  | _ + 1, [] => []
  | fuel + 1, c :: cs =>
    match matchUuid (c :: cs) with
    | some rest => "{uuid}".toList ++ uuidSubFuel fuel rest
    | none => c :: uuidSubFuel fuel cs

/-- First `re.sub` of `_extract_pattern`: UUIDs to the `{uuid}`
placeholder. -/
def uuidSub (s : String) : String :=
  ⟨uuidSubFuel s.toList.length s.toList⟩

/-- The scan of `re.sub(r"\d+", "\x7bid\x7d", s)`: each maximal run of
decimal digits becomes one `{id}` placeholder. -/
def digitSubFuel : Nat → List Char → List Char
  | 0, l => l
  | _ + 1, [] => []
  | fuel + 1, c :: cs =>
    if c.isDigit then "{id}".toList ++ digitSubFuel fuel (cs.dropWhile Char.isDigit)
    else c :: digitSubFuel fuel cs

/-- Second `re.sub` of `_extract_pattern`: digit runs to the `{id}`
placeholder. -/
def digitSub (s : String) : String :=
  ⟨digitSubFuel s.toList.length s.toList⟩

/-- `HARAgent._extract_pattern`, the canonicalizer: the UUID substitution
runs first, the digit-run substitution second. -/
def extractPattern (path : String) : String :=
  digitSub (uuidSub path)

/-- The confidence loop of `_enrich_endpoint`: starting from the running
value `conf`, scan the learned patterns and, at the first pattern whose
regex reSearch the path, take `max conf pattern.confidence` and stop. -/
def enrichLoop (reSearch : String → String → Bool) (path : String) :
    ℚ → List Pattern → ℚ
  | conf, [] => conf
  | conf, p :: ps =>
    if reSearch p.pattern path then max conf p.confidence
    else enrichLoop reSearch path conf ps

/-- The confidence computed by `_enrich_endpoint`: baseline `0.5`,
possibly raised by the first matching learned pattern. -/
def enrichConfidence (reSearch : String → String → Bool)
    (patterns : List Pattern) (path : String) : ℚ :=
  enrichLoop reSearch path (1/2) patterns

/-- `HARAgent._enrich_endpoint`: assemble the enriched record for one
candidate path with its list of source hashes. -/
def enrichEndpoint (reSearch : String → String → Bool) (now : Int)
    (patterns : List Pattern) (path : String) (sourceHashes : List String) :
    APIEndpointIntel :=
  let confidence := enrichConfidence reSearch patterns path
  { path := path
    method := inferMethod path
    category := detectCategory path
    confidence := confidence
    stability_score := min 1 ((sourceHashes.dedup.length : ℚ) / 10)
    first_discovered := now
    last_seen := now
    version_history := []
    deprecation_risk := if 4/5 < confidence then 1/10 else 3/10
    related_endpoints := [] }

/-- The enrichment pass of `analyze_har` over the candidate list (pairs
of a path and its source hashes). -/
def analyzeEnriched (reSearch : String → String → Bool) (now : Int)
    (patterns : List Pattern) (candidates : List (String × List String)) :
    List APIEndpointIntel :=
  candidates.map (fun c => enrichEndpoint reSearch now patterns c.1 c.2)

/-- The `new_discoveries` list collected by `analyze_har`: enriched
records whose confidence ended up strictly below `0.5`. -/
def analyzeNewDiscoveries (reSearch : String → String → Bool) (now : Int)
    (patterns : List Pattern) (candidates : List (String × List String)) :
    List APIEndpointIntel :=
  (analyzeEnriched reSearch now patterns candidates).filter
    (fun i => decide (i.confidence < 1/2))

/-- `HARAgent._assess_quality`: start from `1.0`, subtract `0.05` per
anomaly, add `0.2` times the fraction of high-confidence endpoints, then
clamp into `[0, 1]`.  The `new_discoveries` argument is accepted and
ignored, as in the source. -/
def assessQuality (endpoints newDiscoveries : List APIEndpointIntel)
    (anomalies : List Anomaly) : ℚ :=
  let score : ℚ := 1
  let score := score - anomalies.length * (5/100)
  let highConf := (endpoints.filter (fun e => decide ((4:ℚ)/5 < e.confidence))).length
  let score := score + ((highConf : ℚ) / ((max endpoints.length 1 : Nat) : ℚ)) * (2/10)
  max 0 (min 1 score)

/-- One mutating store operation, for stating invariants over arbitrary
operation sequences. -/
inductive KBOp where
  | learnPat (p : Pattern)
  | learnEp (e : APIEndpointIntel)
  | feedback (path ftype comment : String) (now : Int)
  deriving Repr

/-- Run one store operation. -/
def applyOp (kb : KnowledgeBase) : KBOp → KnowledgeBase
  | .learnPat p => learnPattern kb p
  | .learnEp e => learnEndpoint kb e
  | .feedback path ftype comment now => addFeedback kb path ftype comment now

/-- A pattern row whose confidence is in range. -/
def patOK (p : Pattern) : Prop :=
  0 ≤ p.confidence ∧ p.confidence ≤ 1

/-- An endpoint row whose confidence-like scalars are all in range. -/
def epOK (e : APIEndpointIntel) : Prop :=
  0 ≤ e.confidence ∧ e.confidence ≤ 1 ∧
  0 ≤ e.stability_score ∧ e.stability_score ≤ 1 ∧
  0 ≤ e.deprecation_risk ∧ e.deprecation_risk ≤ 1

/-- The store-wide range invariant: every stored confidence-like scalar
lies in `[0, 1]`. -/
def storeOK (kb : KnowledgeBase) : Prop :=
  (∀ p ∈ kb.patterns, patOK p) ∧ (∀ e ∈ kb.endpoints, epOK e)

/-- A store operation whose argument carries only in-range scalars. -/
def opOK : KBOp → Prop
  | .learnPat p => patOK p
  | .learnEp e => epOK e
  | .feedback _ _ _ _ => True

/-- Look a pattern row up by its unique template key. -/
def findPat (kb : KnowledgeBase) (key : String) : Option Pattern :=
  kb.patterns.find? (fun q => q.pattern == key)

/-- Look an endpoint row up by its unique path key. -/
def findEp (kb : KnowledgeBase) (path : String) : Option APIEndpointIntel :=
  kb.endpoints.find? (fun e => e.path == path)

/-! ### Helper lemmas about keyed row updates -/

theorem find?_map_of_pred {α : Type} (l : List α) (f : α → α) (p : α → Bool)
    (h : ∀ x, p (f x) = p x) : (l.map f).find? p = (l.find? p).map f := by
  induction l with
  | nil => rfl
  | cons a as ih =>
    cases hp : p a with
    | true =>
      rw [List.map_cons, List.find?_cons_of_pos _ (by rw [h a]; exact hp),
        List.find?_cons_of_pos _ hp, Option.map_some']
    | false =>
      rw [List.map_cons, List.find?_cons_of_neg _ (by simp [h a, hp]),
        List.find?_cons_of_neg _ (by simp [hp]), ih]

theorem countP_map_of_pred {α : Type} (l : List α) (f : α → α) (p : α → Bool)
    (h : ∀ x, p (f x) = p x) : (l.map f).countP p = l.countP p := by
  induction l with
  | nil => rfl
  | cons a as ih => simp [List.countP_cons, ih, h a]

theorem any_of_findPat {kb : KnowledgeBase} {key : String} {r : Pattern}
    (hfind : findPat kb key = some r) :
    kb.patterns.any (fun q => q.pattern == key) = true := by
  unfold findPat at hfind
  have h0 := List.find?_some hfind
  exact List.any_eq_true.mpr ⟨r, List.mem_of_find?_eq_some hfind, h0⟩

theorem any_of_findEp {kb : KnowledgeBase} {path : String} {r : APIEndpointIntel}
    (hfind : findEp kb path = some r) :
    kb.endpoints.any (fun e => e.path == path) = true := by
  unfold findEp at hfind
  have h0 := List.find?_some hfind
  exact List.any_eq_true.mpr ⟨r, List.mem_of_find?_eq_some hfind, h0⟩

/-- On a conflicting `learn_pattern`, the stored row for the key becomes
exactly the merged row. -/
theorem findPat_learnPattern_conflict (kb : KnowledgeBase) (q r : Pattern)
    (hfind : findPat kb q.pattern = some r) :
    findPat (learnPattern kb q) q.pattern = some (patternConflictUpdate r q) := by
  have hany := any_of_findPat hfind
  have hpr : (r.pattern == q.pattern) = true := by
    unfold findPat at hfind
    have h0 := List.find?_some hfind
    exact h0
  unfold learnPattern
  rw [if_pos hany]
  unfold findPat at hfind ⊢
  rw [find?_map_of_pred]
  · rw [hfind, Option.map_some', hpr, if_pos rfl]
  · intro x
    by_cases hx : (x.pattern == q.pattern) = true
    · rw [if_pos hx]
      simpa [patternConflictUpdate] using hx
    · rw [if_neg hx]

/-- On a conflicting `learn_endpoint`, the stored row for the path
becomes exactly the merged row. -/
theorem findEp_learnEndpoint_conflict (kb : KnowledgeBase)
    (e r : APIEndpointIntel) (hfind : findEp kb e.path = some r) :
    findEp (learnEndpoint kb e) e.path = some (endpointConflictUpdate r e) := by
  have hany := any_of_findEp hfind
  have hpr : (r.path == e.path) = true := by
    unfold findEp at hfind
    have h0 := List.find?_some hfind
    exact h0
  unfold learnEndpoint
  rw [if_pos hany]
  unfold findEp at hfind ⊢
  rw [find?_map_of_pred]
  · rw [hfind, Option.map_some', hpr, if_pos rfl]
  · intro x
    by_cases hx : (x.path == e.path) = true
    · rw [if_pos hx]
      simpa [endpointConflictUpdate] using hx
    · rw [if_neg hx]

/-! ### C1: repeated pattern upserts -/

/-- **C1.** For every sequence of repeated upserts of a Pattern with the
same template key into the store, the stored confidence is
non-decreasing and never exceeds `1.0` — each conflict applies
`confidence = min(1.0, old_confidence + 0.05)` — and the stored
`occurrence_count` strictly increases by exactly `1` on each
re-observation (so after `n` re-observations it has grown by `n`).  The
hypothesis `r.confidence ≤ 1` is the documented range of the stored
confidence (`0.0 - 1.0`). -/
theorem learnPattern_repeat_monotone (kb : KnowledgeBase) (key : String)
    (qs : List Pattern) (r : Pattern)
    (hfind : findPat kb key = some r) (hc1 : r.confidence ≤ 1)
    (hkeys : ∀ q ∈ qs, q.pattern = key) :
    (∀ q : Pattern, q.pattern = key →
      ∃ r1, findPat (learnPattern kb q) key = some r1 ∧
        r1.confidence = min 1 (r.confidence + 5/100) ∧
        r.confidence ≤ r1.confidence ∧ r1.confidence ≤ 1 ∧
        r1.occurrence_count = r.occurrence_count + 1) ∧
    ∃ r2, findPat (qs.foldl learnPattern kb) key = some r2 ∧
      r.confidence ≤ r2.confidence ∧ r2.confidence ≤ 1 ∧
      r2.occurrence_count = r.occurrence_count + qs.length := by
  have step : ∀ (kb' : KnowledgeBase) (q r' : Pattern), q.pattern = key →
      findPat kb' key = some r' → r'.confidence ≤ 1 →
      ∃ r1, findPat (learnPattern kb' q) key = some r1 ∧
        r1.confidence = min 1 (r'.confidence + 5/100) ∧
        r'.confidence ≤ r1.confidence ∧ r1.confidence ≤ 1 ∧
        r1.occurrence_count = r'.occurrence_count + 1 := by
    intro kb' q r' hq hfind' hle
    subst hq
    refine ⟨patternConflictUpdate r' q, findPat_learnPattern_conflict kb' q r' hfind', rfl, ?_, ?_, rfl⟩
    · exact le_min hle (by linarith)
    · exact min_le_left _ _
  constructor
  · intro q hq
    exact step kb q r hq hfind hc1
  · induction qs generalizing kb r with
    | nil => exact ⟨r, hfind, le_refl _, hc1, by simp⟩
    | cons q qs ih =>
      obtain ⟨r1, hf1, _, hmono1, hle1, hcnt1⟩ :=
        step kb q r (hkeys q (by simp)) hfind hc1
      obtain ⟨r2, hf2, hmono2, hle2, hcnt2⟩ :=
        ih (learnPattern kb q) r1 hf1 hle1 (fun x hx => hkeys x (by simp [hx]))
      refine ⟨r2, by simpa using hf2, le_trans hmono1 hmono2, hle2, ?_⟩
      rw [hcnt2, hcnt1]
      simp
      omega

/-- A sample pattern row used by the concrete witnesses. -/
def samplePattern : Pattern :=
  { pattern := "/api/{id}"
    category := "REST"
    confidence := 7/10
    first_seen := 0
    last_seen := 0
    occurrence_count := 1
    sources := ["h1"] }

/-- A later observation of the same template key. -/
def samplePattern2 : Pattern :=
  { samplePattern with last_seen := 5, sources := ["h2"] }

/-- A store already holding `samplePattern`. -/
def sampleKB : KnowledgeBase := ⟨[samplePattern], [], []⟩

/-- Concrete instantiation of `learnPattern_repeat_monotone`: two
re-observations of `"/api/\x7bid\x7d"` on `sampleKB`. -/
theorem learnPattern_repeat_monotone_witness :
    ∃ r2, findPat ([samplePattern2, samplePattern2].foldl learnPattern sampleKB) "/api/{id}" = some r2 ∧
      samplePattern.confidence ≤ r2.confidence ∧ r2.confidence ≤ 1 ∧
      r2.occurrence_count = samplePattern.occurrence_count + ([samplePattern2, samplePattern2] : List Pattern).length :=
  (learnPattern_repeat_monotone sampleKB "/api/{id}" [samplePattern2, samplePattern2]
    samplePattern rfl (by norm_num [samplePattern]) (by intro q hq; simp [samplePattern2, samplePattern] at hq; simp [hq, samplePattern2, samplePattern])).2

/-! ### C2: endpoint upsert merges on conflict -/

/-- **C2.** Endpoint upsert is idempotent in identity and merges on
conflict: upserting an Endpoint whose path is already stored never
creates a second row for that path (the count of rows with that path,
and the total row count, are unchanged); the existing row keeps its
identity and all other fields while `last_seen` is replaced with the
incoming value, confidence becomes `min(1.0, old + 0.03)`,
`stability_score` becomes `(old + incoming) / 2`, and `version_history`
is replaced with the incoming value. -/
theorem learnEndpoint_upsert (kb : KnowledgeBase) (e r : APIEndpointIntel)
    (hfind : findEp kb e.path = some r) :
    (learnEndpoint kb e).endpoints.countP (fun x => x.path == e.path)
        = kb.endpoints.countP (fun x => x.path == e.path) ∧
    (learnEndpoint kb e).endpoints.length = kb.endpoints.length ∧
    findEp (learnEndpoint kb e) e.path =
      some { r with
             last_seen := e.last_seen
             confidence := min 1 (r.confidence + 3/100)
             stability_score := (r.stability_score + e.stability_score) / 2
             version_history := e.version_history } := by
  have hany := any_of_findEp hfind
  have hmain := findEp_learnEndpoint_conflict kb e r hfind
  have hform : learnEndpoint kb e =
      { kb with endpoints := kb.endpoints.map (fun q => if q.path == e.path then endpointConflictUpdate q e else q) } := by
    unfold learnEndpoint
    rw [if_pos hany]
  refine ⟨?_, ?_, hmain⟩
  · rw [hform]
    apply countP_map_of_pred
    intro x
    by_cases hx : (x.path == e.path) = true
    · rw [if_pos hx]
      simpa [endpointConflictUpdate] using hx
    · rw [if_neg hx]
  · rw [hform]
    exact List.length_map _ _

/-- A sample endpoint row used by the concrete witnesses. -/
def sampleEndpoint : APIEndpointIntel :=
  { path := "/rest/user/{id}"
    method := "GET"
    category := "REST"
    confidence := 3/4
    stability_score := 1/5
    first_discovered := 0
    last_seen := 0
    version_history := []
    deprecation_risk := 3/10
    related_endpoints := [] }

/-- A later observation of the same path. -/
def sampleEndpoint2 : APIEndpointIntel :=
  { sampleEndpoint with last_seen := 7, stability_score := 2/5 }

/-- A store already holding `sampleEndpoint`. -/
def sampleKBEp : KnowledgeBase := ⟨[], [sampleEndpoint], []⟩

/-- Concrete instantiation of `learnEndpoint_upsert` on `sampleKBEp`. -/
theorem learnEndpoint_upsert_witness :
    (learnEndpoint sampleKBEp sampleEndpoint2).endpoints.countP
        (fun x => x.path == sampleEndpoint2.path)
      = sampleKBEp.endpoints.countP (fun x => x.path == sampleEndpoint2.path) ∧
    (learnEndpoint sampleKBEp sampleEndpoint2).endpoints.length
      = sampleKBEp.endpoints.length ∧
    findEp (learnEndpoint sampleKBEp sampleEndpoint2) sampleEndpoint2.path =
      some { sampleEndpoint with
             last_seen := sampleEndpoint2.last_seen
             confidence := min 1 (sampleEndpoint.confidence + 3/100)
             stability_score := (sampleEndpoint.stability_score + sampleEndpoint2.stability_score) / 2
             version_history := sampleEndpoint2.version_history } :=
  learnEndpoint_upsert sampleKBEp sampleEndpoint2 sampleEndpoint rfl

/-! ### C4: feedback recording and adjustment -/

/-- **C4.** `record_feedback` on a stored endpoint path appends exactly
one FeedbackRecord and adjusts only that endpoint's confidence: kind
`correct` sets it to `min(1.0, c + 0.10)`, kind `false_positive` to
`max(0.0, c - 0.20)`, and any other kind (in particular `missed`) leaves
every endpoint unchanged; on a path not in the store the call is a
complete no-op — no record is written and nothing changes. -/
theorem addFeedback_spec (kb : KnowledgeBase) (path ftype comment : String)
    (now : Int) :
    (findEp kb path = none → addFeedback kb path ftype comment now = kb) ∧
    (∀ r, findEp kb path = some r →
      (addFeedback kb path ftype comment now).feedback
          = kb.feedback ++ [⟨path, ftype, comment, now⟩] ∧
      (addFeedback kb path ftype comment now).patterns = kb.patterns ∧
      (∀ x ∈ kb.endpoints, x.path ≠ path →
        x ∈ (addFeedback kb path ftype comment now).endpoints) ∧
      (ftype = "correct" →
        findEp (addFeedback kb path ftype comment now) path
          = some { r with confidence := min 1 (r.confidence + 1/10) }) ∧
      (ftype = "false_positive" →
        findEp (addFeedback kb path ftype comment now) path
          = some { r with confidence := max 0 (r.confidence - 2/10) }) ∧
      (ftype ≠ "correct" → ftype ≠ "false_positive" →
        (addFeedback kb path ftype comment now).endpoints = kb.endpoints)) := by
  constructor
  · intro h
    unfold findEp at h
    unfold addFeedback
    rw [h]
  · intro r h
    have hfind := h
    unfold findEp at hfind
    have hpr : (r.path == path) = true := by
      have h0 := List.find?_some hfind
      exact h0
    have hpred : ∀ x : APIEndpointIntel,
        ((if x.path == path then feedbackAdjust ftype x else x).path == path)
          = (x.path == path) := by
      intro x
      by_cases hx : (x.path == path) = true
      · rw [if_pos hx]
        unfold feedbackAdjust
        split
        · simp
        · split
          · simp
          · rfl
      · rw [if_neg hx]
    have hform : addFeedback kb path ftype comment now =
        { kb with
          feedback := kb.feedback ++ [⟨path, ftype, comment, now⟩]
          endpoints := kb.endpoints.map (fun x => if x.path == path then feedbackAdjust ftype x else x) } := by
      unfold addFeedback
      rw [hfind]
    have hfindAfter : findEp (addFeedback kb path ftype comment now) path
        = some (feedbackAdjust ftype r) := by
      rw [hform]
      unfold findEp
      rw [find?_map_of_pred _ _ _ hpred, hfind, Option.map_some', hpr, if_pos rfl]
    refine ⟨by rw [hform], by rw [hform], ?_, ?_, ?_, ?_⟩
    · intro x hx hxp
      rw [hform]
      refine List.mem_map.mpr ⟨x, hx, ?_⟩
      rw [if_neg (by simpa using hxp)]
    · intro hc
      rw [hfindAfter, hc]
      unfold feedbackAdjust
      simp
    · intro hf
      rw [hfindAfter, hf]
      unfold feedbackAdjust
      simp
    · intro hc hf
      rw [hform]
      have : ∀ x : APIEndpointIntel,
          (if x.path == path then feedbackAdjust ftype x else x) = x := by
        intro x
        have hadj : feedbackAdjust ftype x = x := by
          unfold feedbackAdjust
          rw [if_neg (by simpa using hc), if_neg (by simpa using hf)]
        rw [hadj, ite_self]
      simp only [this, List.map_id']

/-- An endpoint row with the low starting confidence `0.05` of the
spec's floor example. -/
def sampleEndpointLow : APIEndpointIntel :=
  { sampleEndpoint with path := "/low", confidence := 1/20 }

/-- A store holding the two endpoints the feedback witness exercises. -/
def sampleKBFb : KnowledgeBase := ⟨[], [sampleEndpoint, sampleEndpointLow], []⟩

/-- Concrete instantiation of `addFeedback_spec`: the unknown-path no-op,
the `correct` raise `0.75 -> 0.85`, and the floored `false_positive`
drop `0.05 -> 0.0`. -/
theorem addFeedback_spec_witness :
    addFeedback emptyKB "/none" "correct" "" 0 = emptyKB ∧
    findEp (addFeedback sampleKBFb "/rest/user/{id}" "correct" "" 1) "/rest/user/{id}"
      = some { sampleEndpoint with confidence := min 1 (sampleEndpoint.confidence + 1/10) } ∧
    min 1 (sampleEndpoint.confidence + 1/10) = 17/20 ∧
    findEp (addFeedback sampleKBFb "/low" "false_positive" "" 1) "/low"
      = some { sampleEndpointLow with confidence := max 0 (sampleEndpointLow.confidence - 2/10) } ∧
    max 0 (sampleEndpointLow.confidence - 2/10) = 0 :=
  ⟨(addFeedback_spec emptyKB "/none" "correct" "" 0).1 rfl,
   ((addFeedback_spec sampleKBFb "/rest/user/{id}" "correct" "" 1).2
      sampleEndpoint rfl).2.2.2.1 rfl,
   by norm_num [sampleEndpoint],
   ((addFeedback_spec sampleKBFb "/low" "false_positive" "" 1).2
      sampleEndpointLow rfl).2.2.2.2.1 rfl,
   by norm_num [sampleEndpointLow, sampleEndpoint]⟩

/-! ### C8: the `[0,1]` range invariant -/

theorem patOK_conflictUpdate {q : Pattern} (p : Pattern) (h : patOK q) :
    patOK (patternConflictUpdate q p) := by
  obtain ⟨h0, _⟩ := h
  unfold patOK patternConflictUpdate
  constructor
  · simp only []
    exact le_min (by norm_num) (by linarith)
  · exact min_le_left _ _

theorem epOK_conflictUpdate {q e : APIEndpointIntel} (hq : epOK q) (he : epOK e) :
    epOK (endpointConflictUpdate q e) := by
  obtain ⟨hq0, hq1, hqs0, hqs1, hqr0, hqr1⟩ := hq
  obtain ⟨_, _, hes0, hes1, _, _⟩ := he
  unfold epOK endpointConflictUpdate
  refine ⟨le_min (by norm_num) (by linarith), min_le_left _ _, ?_, ?_, hqr0, hqr1⟩
  · simp only []
    linarith
  · simp only []
    linarith

theorem epOK_feedbackAdjust (ftype : String) {e : APIEndpointIntel}
    (h : epOK e) : epOK (feedbackAdjust ftype e) := by
  obtain ⟨h0, h1, hs0, hs1, hr0, hr1⟩ := h
  unfold feedbackAdjust
  split
  · exact ⟨le_min (by norm_num) (by linarith), min_le_left _ _, hs0, hs1, hr0, hr1⟩
  · split
    · exact ⟨le_max_left _ _, max_le (by norm_num) (by linarith), hs0, hs1, hr0, hr1⟩
    · exact ⟨h0, h1, hs0, hs1, hr0, hr1⟩

theorem storeOK_learnPattern {kb : KnowledgeBase} {p : Pattern}
    (h : storeOK kb) (hp : patOK p) : storeOK (learnPattern kb p) := by
  obtain ⟨hpat, hep⟩ := h
  unfold learnPattern
  split
  · refine ⟨?_, hep⟩
    intro x hx
    obtain ⟨a, ha, rfl⟩ := List.mem_map.mp hx
    by_cases hc : (a.pattern == p.pattern) = true
    · rw [if_pos hc]
      exact patOK_conflictUpdate p (hpat a ha)
    · rw [if_neg hc]
      exact hpat a ha
  · refine ⟨?_, hep⟩
    intro x hx
    rcases List.mem_append.mp hx with hx | hx
    · exact hpat x hx
    · rw [List.mem_singleton.mp hx]
      exact hp

theorem storeOK_learnEndpoint {kb : KnowledgeBase} {e : APIEndpointIntel}
    (h : storeOK kb) (he : epOK e) : storeOK (learnEndpoint kb e) := by
  obtain ⟨hpat, hep⟩ := h
  unfold learnEndpoint
  split
  · refine ⟨hpat, ?_⟩
    intro x hx
    obtain ⟨a, ha, rfl⟩ := List.mem_map.mp hx
    by_cases hc : (a.path == e.path) = true
    · rw [if_pos hc]
      exact epOK_conflictUpdate (hep a ha) he
    · rw [if_neg hc]
      exact hep a ha
  · refine ⟨hpat, ?_⟩
    intro x hx
    rcases List.mem_append.mp hx with hx | hx
    · exact hep x hx
    · rw [List.mem_singleton.mp hx]
      exact he

theorem storeOK_addFeedback {kb : KnowledgeBase}
    (path ftype comment : String) (now : Int) (h : storeOK kb) :
    storeOK (addFeedback kb path ftype comment now) := by
  obtain ⟨hpat, hep⟩ := h
  unfold addFeedback
  split
  · exact ⟨hpat, hep⟩
  · refine ⟨hpat, ?_⟩
    intro x hx
    obtain ⟨a, ha, rfl⟩ := List.mem_map.mp hx
    by_cases hc : (a.path == path) = true
    · rw [if_pos hc]
      exact epOK_feedbackAdjust ftype (hep a ha)
    · rw [if_neg hc]
      exact hep a ha

/-- A pattern carrying an out-of-range confidence: the initial insert of
`learn_pattern` stores it verbatim, with no clamp. -/
def badPattern : Pattern :=
  { pattern := "/p"
    category := "Other"
    confidence := 3/2
    first_seen := 0
    last_seen := 0
    occurrence_count := 1
    sources := [] }

/-- **C8, counterexample.** The claim asserts that every store update
writing a confidence-like scalar clamps it into `[0,1]`, including the
initial insert of a new Pattern or Endpoint.  It is false: inserting a
fresh pattern with confidence `1.5` into the empty store stores `1.5`
verbatim, so the `[0,1]` invariant does not survive arbitrary
`learn_pattern` inputs. -/
theorem storeOK_counterexample :
    findPat (applyOp emptyKB (KBOp.learnPat badPattern)) "/p" = some badPattern ∧
    ¬ badPattern.confidence ≤ 1 ∧
    ¬ storeOK (applyOp emptyKB (KBOp.learnPat badPattern)) := by
  refine ⟨rfl, by norm_num [badPattern], ?_⟩
  intro hOK
  have hmem : badPattern ∈ (applyOp emptyKB (KBOp.learnPat badPattern)).patterns := by
    show badPattern ∈ (learnPattern emptyKB badPattern).patterns
    unfold learnPattern emptyKB
    simp
  have := (hOK.1 badPattern hmem).2
  norm_num [badPattern] at this

/-- **C8, amended.** Provided every Pattern or Endpoint handed to
`learn_pattern` / `learn_endpoint` carries confidence-like scalars
already in `[0,1]` (the dataclasses' documented range), every stored
confidence-like scalar (pattern confidence, endpoint confidence,
stability score, deprecation risk) stays in `[0,1]` across every
sequence of `learn_pattern`, `learn_endpoint` and `add_feedback`
operations: conflict updates and feedback updates clamp, merges average
in-range values, and initial inserts store the given in-range values. -/
theorem storeOK_preserved (kb : KnowledgeBase) (ops : List KBOp)
    (h1 : storeOK kb) (h2 : ∀ op ∈ ops, opOK op) :
    storeOK (ops.foldl applyOp kb) := by
  induction ops generalizing kb with
  | nil => exact h1
  | cons op ops ih =>
    rw [List.foldl_cons]
    refine ih (applyOp kb op) ?_ (fun x hx => h2 x (by simp [hx]))
    have hop : opOK op := h2 op (by simp)
    cases op with
    | learnPat p => exact storeOK_learnPattern h1 hop
    | learnEp e => exact storeOK_learnEndpoint h1 hop
    | feedback path ftype comment now =>
        exact storeOK_addFeedback path ftype comment now h1

/-- Concrete instantiation of `storeOK_preserved`: a learn-pattern, a
learn-endpoint, a repeat of each, and a feedback call on the empty
store. -/
theorem storeOK_preserved_witness :
    storeOK ([KBOp.learnPat samplePattern, KBOp.learnEp sampleEndpoint,
        KBOp.learnPat samplePattern2, KBOp.learnEp sampleEndpoint2,
        KBOp.feedback "/rest/user/{id}" "false_positive" "" 9].foldl applyOp emptyKB) :=
  storeOK_preserved emptyKB _
    (by constructor <;> simp [emptyKB])
    (by
      intro op hop
      simp only [List.mem_cons, List.not_mem_nil, or_false] at hop
      rcases hop with rfl | rfl | rfl | rfl | rfl <;>
        norm_num [opOK, patOK, epOK, samplePattern, samplePattern2,
          sampleEndpoint, sampleEndpoint2])

/-! ### C6: the quality score -/

/-- **C6.** The quality score equals
`clamp(1.0 - 0.05 * anomaly_count + 0.2 * (high_conf_count / max(1, total)), 0.0, 1.0)`
where an endpoint is high-confidence exactly when its confidence is
strictly above `0.8`; and the spec's example — two endpoints with
confidences `0.9` and `0.4` plus one anomaly — clamps `1.05` to `1.0`. -/
theorem assessQuality_spec :
    (∀ (endpoints newDiscoveries : List APIEndpointIntel) (anomalies : List Anomaly),
      assessQuality endpoints newDiscoveries anomalies =
        max 0 (min 1 (1 - (5/100) * anomalies.length
          + (2/10) * ((endpoints.countP (fun e => decide ((4:ℚ)/5 < e.confidence)) : ℚ)
              / ((max 1 endpoints.length : Nat) : ℚ))))) ∧
    assessQuality [{ sampleEndpoint with confidence := 9/10 },
        { sampleEndpoint with confidence := 4/10 }] []
        [⟨"unusual_length", "/x", "medium"⟩] = 1 := by
  constructor
  · intro endpoints newDiscoveries anomalies
    unfold assessQuality
    rw [List.countP_eq_length_filter, Nat.max_comm 1 endpoints.length]
    ring_nf
  · unfold assessQuality
    norm_num [List.filter_cons, sampleEndpoint]

/-! ### C7: the staleness query -/

/-- An endpoint last seen 40 days before the reference time `100`. -/
def staleOld : APIEndpointIntel :=
  { sampleEndpoint with path := "/old", last_seen := 60, deprecation_risk := 1/2 }

/-- An endpoint last seen 10 days before the reference time `100`. -/
def staleNew : APIEndpointIntel :=
  { sampleEndpoint with path := "/new", last_seen := 90 }

/-- A store holding the two endpoints of the staleness example. -/
def staleKB : KnowledgeBase := ⟨[], [staleOld, staleNew], []⟩

/-- **C7.** `query_stale_endpoints(age_threshold)` returns exactly the
stored endpoints whose `last_seen` predates `now - age_threshold`
(a permutation of that filter of the endpoint table — the store itself
is a value and is not modified by this pure query), ordered by
deprecation risk descending; with a 30-day threshold an endpoint last
seen 40 days ago is returned and one last seen 10 days ago is not. -/
theorem detectDeprecations_spec :
    (∀ (kb : KnowledgeBase) (now days : Int),
      (detectDeprecations kb now days).Perm
          (kb.endpoints.filter (fun e => decide (e.last_seen < now - days))) ∧
      (detectDeprecations kb now days).Sorted riskLe) ∧
    staleOld ∈ detectDeprecations staleKB 100 30 ∧
    staleNew ∉ detectDeprecations staleKB 100 30 := by
  have heval : detectDeprecations staleKB 100 30 = [staleOld] := by
    unfold detectDeprecations staleKB
    simp [List.filter_cons, staleOld, staleNew, List.insertionSort, List.orderedInsert]
  refine ⟨?_, ?_, ?_⟩
  · intro kb now days
    exact ⟨List.perm_insertionSort riskLe _, List.sorted_insertionSort riskLe _⟩
  · rw [heval]
    simp
  · rw [heval]
    simp [staleOld, staleNew]

/-! ### C5: confidence enrichment against the pattern query -/

theorem enrichLoop_no_match (reSearch : String → String → Bool) (path : String)
    (conf : ℚ) (ps : List Pattern)
    (h : ∀ p ∈ ps, reSearch p.pattern path = false) :
    enrichLoop reSearch path conf ps = conf := by
  induction ps with
  | nil => rfl
  | cons p ps ih =>
    unfold enrichLoop
    rw [h p (by simp), ih (fun q hq => h q (by simp [hq]))]
    simp

theorem enrichLoop_first_match (reSearch : String → String → Bool) (path : String)
    (conf : ℚ) (pre post : List Pattern) (p : Pattern)
    (hpre : ∀ q ∈ pre, reSearch q.pattern path = false)
    (hp : reSearch p.pattern path = true) :
    enrichLoop reSearch path conf (pre ++ p :: post) = max conf p.confidence := by
  induction pre with
  | nil =>
    rw [List.nil_append]
    simp only [enrichLoop, hp]
    simp
  | cons q pre ih =>
    rw [List.cons_append]
    unfold enrichLoop
    rw [hpre q (by simp)]
    simp only [Bool.false_eq_true, if_false]
    exact ih (fun x hx => hpre x (by simp [hx]))

theorem enrichLoop_le (reSearch : String → String → Bool) (path : String)
    (conf : ℚ) (ps : List Pattern) : conf ≤ enrichLoop reSearch path conf ps := by
  induction ps with
  | nil => exact le_refl _
  | cons p ps ih =>
    unfold enrichLoop
    by_cases h : reSearch p.pattern path = true
    · rw [h]
      simpa using le_max_left _ _
    · rw [Bool.not_eq_true] at h
      rw [h]
      simpa using ih

/-- **C5.** Enrichment confidence: the scan runs over
`get_learned_patterns(0.7)` — exactly the stored patterns with
confidence `>= 0.7`, ordered by confidence descending with ties broken
by occurrence count descending — and yields the baseline `0.5` when no
pattern matches the path, and `max(0.5, c)` for the confidence `c` of
the first matching pattern in that order, ignoring all later matches. -/
theorem enrichConfidence_spec (kb : KnowledgeBase)
    (reSearch : String → String → Bool) (path : String) :
    (getLearnedPatterns kb (7/10)).Perm
        (kb.patterns.filter (fun p => decide ((7:ℚ)/10 ≤ p.confidence))) ∧
    (getLearnedPatterns kb (7/10)).Sorted patLe ∧
    (∀ p ∈ getLearnedPatterns kb (7/10), (7:ℚ)/10 ≤ p.confidence) ∧
    ((∀ p ∈ getLearnedPatterns kb (7/10), reSearch p.pattern path = false) →
      enrichConfidence reSearch (getLearnedPatterns kb (7/10)) path = 1/2) ∧
    (∀ (pre post : List Pattern) (p : Pattern),
      getLearnedPatterns kb (7/10) = pre ++ p :: post →
      (∀ q ∈ pre, reSearch q.pattern path = false) →
      reSearch p.pattern path = true →
      enrichConfidence reSearch (getLearnedPatterns kb (7/10)) path
        = max (1/2) p.confidence) := by
  refine ⟨List.perm_insertionSort patLe _, List.sorted_insertionSort patLe _, ?_, ?_, ?_⟩
  · intro p hp
    have hmem : p ∈ kb.patterns.filter (fun p => decide ((7:ℚ)/10 ≤ p.confidence)) :=
      (List.perm_insertionSort patLe _).mem_iff.mp hp
    exact of_decide_eq_true (List.mem_filter.mp hmem).2
  · intro h
    exact enrichLoop_no_match reSearch path _ _ h
  · intro pre post p hlist hpre hp
    unfold enrichConfidence
    rw [hlist]
    exact enrichLoop_first_match reSearch path _ pre post p hpre hp

/-- A high-confidence stored pattern. -/
def patHigh : Pattern :=
  { pattern := "/api/{id}"
    category := "REST"
    confidence := 9/10
    first_seen := 0
    last_seen := 0
    occurrence_count := 3
    sources := [] }

/-- A mid-confidence stored pattern, above the `0.7` threshold. -/
def patMid : Pattern :=
  { patHigh with pattern := "/auth/login", category := "Auth", confidence := 3/4, occurrence_count := 1 }

/-- A stored pattern below the `0.7` threshold. -/
def patLow : Pattern :=
  { patHigh with pattern := "/sse/x", category := "SSE", confidence := 3/5 }

/-- A store holding the three patterns above, deliberately unsorted. -/
def enrichKB : KnowledgeBase := ⟨[patMid, patLow, patHigh], [], []⟩

/-- A concrete matcher: the pattern template matches a path when it
equals the path's canonical form. -/
def canonMatch : String → String → Bool :=
  fun pat pth => pat == extractPattern pth

/-- Concrete instantiation of `enrichConfidence_spec`: on `enrichKB` the
query yields `[patHigh, patMid]` and the path `"/api/7"` matches
`patHigh` first, so enrichment returns `max 0.5 0.9`. -/
theorem enrichConfidence_spec_witness :
    enrichConfidence canonMatch (getLearnedPatterns enrichKB (7/10)) "/api/7"
      = max (1/2) patHigh.confidence :=
  (enrichConfidence_spec enrichKB canonMatch "/api/7").2.2.2.2 [] [patMid] patHigh
    (by
      unfold getLearnedPatterns enrichKB
      norm_num [List.filter_cons, patHigh, patMid, patLow,
        List.insertionSort, List.orderedInsert, patLe])
    (by simp)
    (by decide)

/-! ### C10: new discoveries are impossible -/

/-- **C10.** Enrichment never assigns a confidence below the `0.5`
baseline, while `analyze_har` classifies an endpoint as a new discovery
exactly when its enriched confidence is strictly below `0.5`; hence the
report's `new_discoveries` list is empty on every run. -/
theorem analyzeNewDiscoveries_empty :
    (∀ (reSearch : String → String → Bool) (patterns : List Pattern) (path : String),
      1/2 ≤ enrichConfidence reSearch patterns path) ∧
    (∀ (reSearch : String → String → Bool) (now : Int) (patterns : List Pattern)
        (candidates : List (String × List String)),
      analyzeNewDiscoveries reSearch now patterns candidates = []) := by
  have hle : ∀ (reSearch : String → String → Bool) (patterns : List Pattern)
      (path : String), 1/2 ≤ enrichConfidence reSearch patterns path :=
    fun reSearch patterns path => enrichLoop_le reSearch path (1/2) patterns
  refine ⟨hle, ?_⟩
  intro reSearch now patterns candidates
  unfold analyzeNewDiscoveries
  rw [List.filter_eq_nil_iff]
  intro i hi
  obtain ⟨c, _, rfl⟩ := List.mem_map.mp hi
  have : 1/2 ≤ (enrichEndpoint reSearch now patterns c.1 c.2).confidence :=
    hle reSearch patterns c.1
  simpa using not_lt.mpr this

/-! ### C9: HTTP method inference -/

/-- **C9, counterexample.** The claim says a path containing `"create"`
is inferred as POST; the source probes for the slash-prefixed
`"/create"`.  The path `"/recreate"` contains `"create"` but not
`"/create"` (nor any other probe), and the code infers GET for it. -/
theorem inferMethod_counterexample :
    ("create".toList <:+: "/recreate".toList) ∧
    ¬ ("/create".toList <:+: "/recreate".toList) ∧
    inferMethod "/recreate" = "GET" ∧
    inferMethod "/recreate" ≠ "POST" := by
  refine ⟨by decide, by decide, by decide, by decide⟩

/-- **C9, amended.** For every path, the inferred method is POST when
the path contains `"/create"` or `"/add"` (slash-prefixed substrings),
PUT when it contains `"/update"` or `"/edit"`, DELETE when it contains
`"/delete"` or `"/remove"`, and GET otherwise, the first matching rule
in that written order winning. -/
theorem inferMethod_spec (path : String) :
    inferMethod path =
      if "/create".toList <:+: path.toList ∨ "/add".toList <:+: path.toList then "POST"
      else if "/update".toList <:+: path.toList ∨ "/edit".toList <:+: path.toList then "PUT"
      else if "/delete".toList <:+: path.toList ∨ "/remove".toList <:+: path.toList then "DELETE"
      else "GET" := by
  unfold inferMethod containsStr
  simp only [Bool.or_eq_true, decide_eq_true_eq]

/-- Concrete instantiation of `inferMethod_spec` at the four kinds of
paths (the statement's binder is over all paths; the rules fire on the
slash-prefixed probes). -/
theorem inferMethod_spec_witness :
    inferMethod "/thread/create" = "POST" ∧
    inferMethod "/user/edit" = "PUT" ∧
    inferMethod "/user/remove" = "DELETE" ∧
    inferMethod "/thread/list" = "GET" :=
  ⟨by rw [inferMethod_spec]; decide, by rw [inferMethod_spec]; decide,
   by rw [inferMethod_spec]; decide, by rw [inferMethod_spec]; decide⟩

/-! ### C3: the canonicalizer -/

theorem digitSubFuel_no_digit (fuel : Nat) :
    ∀ (l : List Char), l.length ≤ fuel →
      ∀ c ∈ digitSubFuel fuel l, c.isDigit = false := by
  induction fuel with
  | zero =>
    intro l hl c hc
    rw [List.length_eq_zero.mp (Nat.le_zero.mp hl)] at hc
    simp [digitSubFuel] at hc
  | succ n ih =>
    intro l hl c hc
    cases l with
    | nil => simp [digitSubFuel] at hc
    | cons a as =>
      rw [List.length_cons, Nat.succ_le_succ_iff] at hl
      by_cases ha : a.isDigit = true
      · simp only [digitSubFuel, ha, if_true] at hc
        rcases List.mem_append.mp hc with h | h
        · exact (by decide : ∀ x ∈ "{id}".toList, x.isDigit = false) c h
        · exact ih (as.dropWhile Char.isDigit)
            (le_trans (List.dropWhile_sublist Char.isDigit).length_le hl) c h
      · rw [Bool.not_eq_true] at ha
        simp only [digitSubFuel, ha, Bool.false_eq_true, if_false] at hc
        rcases List.mem_cons.mp hc with rfl | h
        · exact ha
        · exact ih as hl c h

/-- **C3, counterexample.**  The claim reads the UUID rule as replacing
every UUID-shaped segment of hexadecimal groups; the source's character
class is `[0-9a-f]`, lowercase only.  On an uppercase-hex UUID segment
the claim predicts `/thread/{uuid}/messages/{id}`, while the code leaves
the segment unreplaced and then fragments its digit runs. -/
theorem extractPattern_counterexample :
    extractPattern "/thread/3FA85F64-5717-4562-B3FC-2C963F66AFA6/messages/42"
        ≠ "/thread/{uuid}/messages/{id}" ∧
    extractPattern "/thread/3FA85F64-5717-4562-B3FC-2C963F66AFA6/messages/42"
        = "/thread/{id}FA{id}F{id}-{id}-{id}-B{id}FC-{id}C{id}F{id}AFA{id}/messages/{id}" :=
  ⟨by decide, by decide⟩

/-- **C3, amended.** For every concrete path string the canonicalizer
first replaces every substring shaped like a lowercase-hex UUID
(8-4-4-4-12 groups over `[0-9a-f]`, whether or not it spans a whole
path segment) with `{uuid}`, and then replaces every maximal run of
decimal digits with `{id}`; it performs no other normalization and
always returns a string.  Witnessed by the spec's example, a
mid-segment replacement, and the theorem that no digit survives in any
output. -/
theorem extractPattern_spec :
    extractPattern "/thread/3fa85f64-5717-4562-b3fc-2c963f66afa6/messages/42"
        = "/thread/{uuid}/messages/{id}" ∧
    extractPattern "/a/x3fa85f64-5717-4562-b3fc-2c963f66afa6/b" = "/a/x{uuid}/b" ∧
    (∀ path : String, extractPattern path = digitSub (uuidSub path)) ∧
    (∀ path : String, ∀ c ∈ (extractPattern path).toList, c.isDigit = false) := by
  refine ⟨by decide, by decide, fun _ => rfl, ?_⟩
  intro path c hc
  exact digitSubFuel_no_digit (uuidSub path).toList.length (uuidSub path).toList
    (le_refl _) c hc

/-- Concrete instantiation of `extractPattern_spec`'s digit-freeness at
the path `"/9"` and its surviving slash character. -/
theorem extractPattern_spec_witness :
    Char.isDigit '/' = false :=
  extractPattern_spec.2.2.2 "/9" '/' (by decide)

end HarAgent
